import Mathlib

/-!
Verification of the cronlock distributed cron scheduler against its
natural-language specification.

The Go sources are shallowly embedded: pure functions become Lean
functions, stateful methods become explicit state passing, goroutine
interactions and store failures are supplied through explicit oracle
arguments, and Go `time.Duration` values are integers counting
nanoseconds.  Machine-word overflow never matters at the magnitudes the
program manipulates (TTLs and timeouts far below 2^63 ns), so durations
are modelled as unbounded integers.
-/

namespace Cronlock

/-- Go `time.Duration`: a count of nanoseconds. -/
abbrev Duration := Int

/-- One second in nanoseconds (Go `time.Second`). -/
def second : Duration := 1000000000

/-- One minute in nanoseconds (Go `time.Minute`). -/
def minute : Duration := 60 * second

namespace Executor

/-- Errors returned by `cmd.Run()` in Go, split by the only distinction
`Execute` makes: `*exec.ExitError` (the child ran and terminated,
carrying its exit code) versus any other error (spawn failure,
context cancellation before start, and so on). -/
inductive GoErr where
  | exitError (code : Int)
  | otherError (msg : String)
deriving DecidableEq

/-- Whether a Go error is an `*exec.ExitError` (the type switch in
`Execute`). -/
def GoErr.isExitError : GoErr → Bool
  | .exitError _ => true
  | .otherError _ => false

/-- `executor.Result`: the result of a command execution (field names as
in the source; `Duration` is suffixed `Ns` to record its unit). -/
structure Result where
  ExitCode : Int
  Stdout : String
  Stderr : String
  DurationNs : Duration
  Err : Option GoErr
deriving DecidableEq

/-- `Result.Success` from the source: `r.Err == nil && r.ExitCode == 0`. -/
def Result.Success (r : Result) : Bool :=
  r.Err.isNone && r.ExitCode == 0

/-- `executor.Options`: execution options for a command.  The Go
environment map is carried as an association list. -/
structure Options where
  Command : String
  WorkDir : String
  Env : List (String × String)
  Timeout : Duration
deriving DecidableEq

/-- What the operating system hands back to `Execute` for one spawn:
the error from `cmd.Run()` (if any) and the captured buffers and wall
duration.  This is the oracle input that stands for the actual child
process. -/
structure RunOutcome where
  runErr : Option GoErr
  stdoutStr : String
  stderrStr : String
  durationNs : Duration
deriving DecidableEq

/-- `Executor.Execute` from the source, given the outcome of the
underlying `cmd.Run()` call: the zero-valued `Result` is filled with the
buffers and duration; on error, `Err` is set and `ExitCode` becomes the
exit error's code, or `-1` when the error is not an `*exec.ExitError`
(the child never ran). -/
def Execute (o : RunOutcome) : Result :=
  let base : Result :=
    { ExitCode := 0, Stdout := o.stdoutStr, Stderr := o.stderrStr,
      DurationNs := o.durationNs, Err := none }
  match o.runErr with
  | none => base
  | some e =>
    { base with
      Err := some e,
      ExitCode :=
        match e with
        | .exitError code => code
        | .otherError _ => -1 }

end Executor

namespace Lock

/-- The remote key-value store: an association list from key to
(value, remaining TTL in milliseconds).  Only the operations the Lua
scripts use are modelled. -/
abbrev Store := List (String × String × Int)

/-- Redis GET: the value stored at a key, if present. -/
def storeGet (st : Store) (k : String) : Option String :=
  (st.lookup k).map (·.1)

/-- Redis DEL of a single key. -/
def storeDel (st : Store) (k : String) : Store :=
  st.filter (fun kv => !(kv.1 == k))

/-- Redis PEXPIRE: reset the TTL (in milliseconds) of a key that is
present; absent keys are untouched. -/
def storePexpire (st : Store) (k : String) (ttlMs : Int) : Store :=
  st.map (fun kv => if kv.1 == k then (kv.1, kv.2.1, ttlMs) else kv)

/-- The `releaseScript` Lua script: delete the key iff its current value
equals the argument; the integer reply is the number of keys deleted
(1 on match, 0 otherwise). -/
def releaseScriptEval (st : Store) (key value : String) : Int × Store :=
  if storeGet st key = some value then (1, storeDel st key) else (0, st)

/-- The `extendScript` Lua script: reset the key's TTL iff its current
value equals the argument; the integer reply is PEXPIRE's result
(1 when the key exists, which it does after a successful GET match). -/
def extendScriptEval (st : Store) (key value : String) (ttlMs : Int) : Int × Store :=
  if storeGet st key = some value then (1, storePexpire st key ttlMs) else (0, st)

/-- One round trip to the store, as recorded in operation traces. -/
inductive StoreOp where
  | setNX (key value : String) (ttlNs : Duration)
  | runScript (script : String) (key value : String)
deriving DecidableEq

/-- `lock.RedisLocker`: node identity, key prefix, and the per-node
table from job name to the lock value recorded at acquisition. -/
structure RedisLocker where
  nodeID : String
  keyPrefix : String
  locks : List (String × String)
deriving DecidableEq

/-- `RedisLocker.lockKey`: the Redis key for a job lock, formatted as
the prefix, then `job:`, then the job name. -/
def RedisLocker.lockKey (r : RedisLocker) (jobName : String) : String :=
  r.keyPrefix ++ "job:" ++ jobName

/-- `RedisLocker.lockValue` with the freshly generated UUID supplied as
an argument: the node id, a colon, and the nonce. -/
def RedisLocker.lockValueWith (r : RedisLocker) (nonce : String) : String :=
  r.nodeID ++ ":" ++ nonce

/-- `RedisLocker.Acquire` given the fresh nonce and oracles for the
store round trip: `storeErr` models the SET call failing, `keyAbsent`
models whether SET NX found the key absent.  Returns
(acquired result or error, locker, trace). -/
def RedisLocker.Acquire (r : RedisLocker) (jobName : String) (ttl : Duration)
    (nonce : String) (storeErr keyAbsent : Bool) :
    (Option String × Bool) × RedisLocker × List StoreOp :=
  let key := r.lockKey jobName
  let value := r.lockValueWith nonce
  if storeErr then
    ((some "failed to acquire lock", false), r, [.setNX key value ttl])
  else if keyAbsent then
    ((none, true), { r with locks := (jobName, value) :: r.locks }, [.setNX key value ttl])
  else
    ((none, false), r, [.setNX key value ttl])

/-- `RedisLocker.Release` from the source.  The recorded value is looked
up; when absent the call is a no-op returning nil without any store
round trip.  Otherwise the release script runs (`storeErr` models the
script call failing, in which case the error is returned before the
local table is touched); on a successful round trip the recorded entry
is deleted and nil is returned whether the script reply was 1 (deleted)
or 0 (value mismatch). -/
def RedisLocker.Release (r : RedisLocker) (st : Store) (jobName : String)
    (storeErr : Bool) : Option String × RedisLocker × Store × List StoreOp :=
  let key := r.lockKey jobName
  match r.locks.lookup jobName with
  | none => (none, r, st, [])
  | some value =>
    if storeErr then
      (some "failed to release lock", r, st, [.runScript "release" key value])
    else
      let (result, st') := releaseScriptEval st key value
      let r' : RedisLocker := { r with locks := r.locks.filter (fun kv => !(kv.1 == jobName)) }
      if result == 0 then
        (none, r', st', [.runScript "release" key value])
      else
        (none, r', st', [.runScript "release" key value])

/-- `RedisLocker.Extend` from the source.  When no value is recorded for
the job the call returns false without any store round trip; otherwise
the extend script runs with the TTL converted to milliseconds
(truncating division, as in Go) and the call returns whether the reply
was 1. -/
def RedisLocker.Extend (r : RedisLocker) (st : Store) (jobName : String)
    (ttl : Duration) (storeErr : Bool) :
    (Option String × Bool) × RedisLocker × Store × List StoreOp :=
  let key := r.lockKey jobName
  match r.locks.lookup jobName with
  | none => ((none, false), r, st, [])
  | some value =>
    if storeErr then
      ((some "failed to extend lock", false), r, st, [.runScript "extend" key value])
    else
      let (result, st') := extendScriptEval st key value (Int.tdiv ttl 1000000)
      ((none, result == 1), r, st', [.runScript "extend" key value])

end Lock

namespace Config

/-- `config.JobConfig`: a scheduled job definition (field names as in
the source; durations in nanoseconds, the environment map as an
association list, `Enabled` as Go's nil-able bool pointer). -/
structure JobConfig where
  Name : String
  Schedule : String
  Command : String
  Timeout : Duration
  LockTTL : Duration
  WorkDir : String
  Env : List (String × String)
  OnFailure : String
  OnSuccess : String
  Enabled : Option Bool
deriving DecidableEq

/-- `JobConfig.IsEnabled`: whether the job is enabled; defaults to true
when the field is absent. -/
def JobConfig.IsEnabled (j : JobConfig) : Bool :=
  match j.Enabled with
  | none => true
  | some b => b

/-- The per-job loop of the loader's `validate`: walks the job list in
order carrying the index and the `seen` table from name to first index,
returning the first error found or nil.  Schedule-expression validity is
decided by the robfig cron parser, an external collaborator supplied
here as the `parseOk` predicate. -/
def validateJobs (parseOk : String → Bool) :
    List JobConfig → Nat → List (String × Nat) → Option String
  | [], _, _ => none
  | job :: rest, i, seen =>
    if job.Name = "" then
      some ("jobs[" ++ toString i ++ "].name is required")
    else
      match seen.lookup job.Name with
      | some _ => some ("jobs[" ++ toString i ++ "].name is a duplicate")
      | none =>
        if job.Schedule = "" then
          some ("jobs[" ++ toString i ++ "].schedule is required")
        else if !parseOk job.Schedule then
          some ("jobs[" ++ toString i ++ "].schedule is invalid")
        else if job.Command = "" then
          some ("jobs[" ++ toString i ++ "].command is required")
        else if job.Timeout < 0 then
          some ("jobs[" ++ toString i ++ "].timeout must be non-negative")
        else if job.LockTTL < 0 then
          some ("jobs[" ++ toString i ++ "].lock_ttl must be non-negative")
        else validateJobs parseOk rest (i + 1) ((job.Name, i) :: seen)

/-- `config.NodeConfig`. -/
structure NodeConfig where
  ID : String
  GracePeriod : Duration
deriving DecidableEq

/-- `config.RedisConfig`. -/
structure RedisConfig where
  Address : String
  Password : String
  DB : Int
  KeyPrefix : String
deriving DecidableEq

/-- `config.Config`: the complete application configuration. -/
structure Config where
  Node : NodeConfig
  Redis : RedisConfig
  Jobs : List JobConfig
deriving DecidableEq

/-- The loader's `validate`: redis address presence, redis DB range,
non-negative grace period, then the per-job loop.  `none` means the
configuration is valid; `some` carries the error message. -/
def validate (parseOk : String → Bool) (cfg : Config) : Option String :=
  if cfg.Redis.Address = "" then some "redis.address is required"
  else if cfg.Redis.DB < 0 ∨ 15 < cfg.Redis.DB then
    some "redis.db must be between 0 and 15"
  else if cfg.Node.GracePeriod < 0 then
    some "node.grace_period must be non-negative"
  else validateJobs parseOk cfg.Jobs 0 []

/-- Go's `isShellSpecialVar`: the one-character shell variables. -/
def isShellSpecialVar (c : Char) : Bool :=
  c = '*' || c = '#' || c = '$' || c = '@' || c = '!' || c = '?' ||
    ('0' ≤ c && c ≤ '9')

/-- Go's `isAlphaNum`: underscore, digits and ASCII letters. -/
def isAlphaNum (c : Char) : Bool :=
  c = '_' || ('0' ≤ c && c ≤ '9') || ('a' ≤ c && c ≤ 'z') ||
    ('A' ≤ c && c ≤ 'Z')

/-- Index of the first closing brace in a character list. -/
def idxOfRBrace : List Char → Option Nat
  | [] => none
  | c :: rest => if c = '\x7d' then some 0 else (idxOfRBrace rest).map (· + 1)

/-- The brace arm of Go's `getShellName`: scan the characters following
an opening brace for the matching closing brace, returning the enclosed
name and the number of characters consumed (both braces included), with
the two bad-syntax escapes of the Go code (an immediately closed pair
consumes two characters and an unclosed brace one, each yielding an
empty name). -/
def braceScan (rest : List Char) : List Char × Nat :=
  match idxOfRBrace rest with
  | none => ([], 1)
  | some 0 => ([], 2)
  | some i => (rest.take i, i + 2)

/-- Go `os.Expand`'s `getShellName`, applied to the characters that
follow a dollar sign: the variable reference's name and the number of
characters consumed. -/
def getShellName (s : List Char) : List Char × Nat :=
  match s with
  | [] => ([], 0)
  | c :: rest =>
    if c = '\x7b' then
      match rest with
      | c1 :: c2 :: _ =>
        if isShellSpecialVar c1 && (c2 == '\x7d') then ([c1], 3)
        else braceScan rest
      | _ => braceScan rest
    else if isShellSpecialVar c then ([c], 2)
    else (s.takeWhile isAlphaNum, (s.takeWhile isAlphaNum).length)

/-- Go `os.Expand`'s main loop over the remaining characters: ordinary
characters are copied; at a dollar sign followed by at least one
character, `getShellName` classifies what follows — bad syntax is eaten,
a bare dollar not followed by a name is kept, and otherwise the mapping
of the name is substituted and the consumed characters skipped. -/
def expandChars (mapping : List Char → List Char) : List Char → List Char
  | [] => []
  | c :: rest =>
    if c = '$' ∧ rest ≠ [] then
      match getShellName rest with
      | (name, w) =>
        if name = [] then
          if w = 0 then c :: expandChars mapping rest
          else expandChars mapping (rest.drop w)
        else mapping name ++ expandChars mapping (rest.drop w)
    else c :: expandChars mapping rest
termination_by l => l.length
decreasing_by
  all_goals simp [List.length_drop]
  all_goals omega

/-- Whether a character list begins with a colon immediately followed
by a dash. -/
def startsWithColonDash (l : List Char) : Bool :=
  match l with
  | a :: b :: _ => a == ':' && b == '-'
  | _ => false

/-- Index of the first colon-dash occurrence in a key, Go's
`strings.Index(key, ":-")`. -/
def findColonDash : List Char → Option Nat
  | [] => none
  | c :: rest =>
    if startsWithColonDash (c :: rest) then some 0
    else (findColonDash rest).map (· + 1)

/-- Go's `os.Getenv` over the modelled environment: the variable's
value, or the empty string when unset. -/
def goGetenv (env : String → Option String) (k : String) : String :=
  (env k).getD ""

/-- The mapping closure the loader's `expandEnv` passes to `os.Expand`:
a key containing a colon-dash is split at its first occurrence into
variable name and default value, substituting the variable when it is
set to a non-empty value and the default otherwise; any other key is
looked up directly. -/
def envMapping (env : String → Option String) (key : List Char) : List Char :=
  match findColonDash key with
  | some idx =>
    let varName : String := ⟨key.take idx⟩
    let defaultVal := key.drop (idx + 2)
    if goGetenv env varName ≠ "" then (goGetenv env varName).data
    else defaultVal
  | none => (goGetenv env ⟨key⟩).data

/-- The loader's `expandEnv`: `os.Expand` of the string under the
default-aware environment mapping. -/
def expandEnv (env : String → Option String) (s : String) : String :=
  ⟨expandChars (envMapping env) s.data⟩

end Config

namespace Scheduler

/-- An opaque identifier standing for a `context.CancelFunc` value. -/
abbrev CancelHandle := Nat

/-- Per-controller runtime state guarded by the controller mutex: the
`running` flag and the stored cancel function (`cancelCtx`), which is
`none` when no cancel function has ever been stored. -/
structure JobState where
  running : Bool
  cancelCtx : Option CancelHandle
deriving DecidableEq

/-- The three outcomes of the `locker.Acquire` call inside `Job.Run`. -/
inductive AcquireOutcome where
  | storeError
  | notAcquired
  | acquired
deriving DecidableEq

/-- Oracle inputs for one `Job.Run` invocation: the acquire outcome and
what the operating system hands back for the workload spawn. -/
structure RunOracle where
  acquireRes : AcquireOutcome
  execOutcome : Executor.RunOutcome
  releaseErr : Bool
deriving DecidableEq

/-- Externally visible effects of a `Job.Run` invocation, in program
order.  `ctxDeadline` records the deadline carried by the context passed
to the executor: `none` for a context with no deadline
(`context.Background()`), `some d` for `context.WithTimeout` of `d`. -/
inductive Event where
  | acquire (jobName : String) (ttl : Duration)
  | spawnRenewer (ttl : Duration)
  | stopRenewer
  | execWorkload (opts : Executor.Options) (ctxDeadline : Option Duration)
  | execHook (hookType : String) (opts : Executor.Options) (ctxDeadline : Option Duration)
  | sleepGrace (d : Duration)
  | release (jobName : String)
deriving DecidableEq

/-- `scheduler.Job`: the per-job controller's immutable part (its
configuration and the node's grace period). -/
structure Job where
  config : Config.JobConfig
  gracePeriod : Duration
deriving DecidableEq

/-- `Job.runHook` from the source: the hook command is executed with the
caller's context and an `executor.Options` whose `Timeout` field is left
at its zero value. -/
def Job.runHook (j : Job) (ctxDeadline : Option Duration) (command hookType : String) :
    Event :=
  .execHook hookType
    { Command := command, WorkDir := j.config.WorkDir, Env := j.config.Env,
      Timeout := 0 } ctxDeadline

/-- The lease-TTL computation at the top of `Job.Run`: the configured
`LockTTL` unless it is zero, in which case `Timeout + time.Minute` when
`Timeout > 0` and five minutes otherwise. -/
def lockTTLFor (cfg : Config.JobConfig) : Duration :=
  if cfg.LockTTL == 0 then
    if cfg.Timeout > 0 then cfg.Timeout + minute else 5 * minute
  else cfg.LockTTL

/-- `Job.Run` from the source, as a state transformer producing the new
controller state and the trace of externally visible effects.  `h` is
the cancel function created for this firing.  The structure mirrors the
source: the re-entry guard returns immediately when `running` is set;
the deferred handler clears only `running` (never `cancelCtx`); acquire
errors and misses return after the deferred clear; on acquisition the
cancel function is stored, the renewer spawned, the workload executed
under a deadline only when `Timeout > 0`, the renewer stopped, the
matching configured hook run with the deadline-free outer context, the
grace period slept when positive, and the lease released. -/
def Job.Run (j : Job) (st : JobState) (o : RunOracle) (h : CancelHandle) :
    JobState × List Event :=
  if st.running then
    (st, [])
  else
    let lockTTL := lockTTLFor j.config
    match o.acquireRes with
    | .storeError => ({ st with running := false }, [.acquire j.config.Name lockTTL])
    | .notAcquired => ({ st with running := false }, [.acquire j.config.Name lockTTL])
    | .acquired =>
      let execDeadline : Option Duration :=
        if j.config.Timeout > 0 then some j.config.Timeout else none
      let result := Executor.Execute o.execOutcome
      let hookEvents : List Event :=
        if result.Success then
          if j.config.OnSuccess ≠ "" then [j.runHook none j.config.OnSuccess "success"]
          else []
        else
          if j.config.OnFailure ≠ "" then [j.runHook none j.config.OnFailure "failure"]
          else []
      let graceEvents : List Event :=
        if j.gracePeriod > 0 then [.sleepGrace j.gracePeriod] else []
      ({ running := false, cancelCtx := some h },
        [Event.acquire j.config.Name lockTTL, Event.spawnRenewer lockTTL,
          Event.execWorkload
            { Command := j.config.Command, WorkDir := j.config.WorkDir,
              Env := j.config.Env, Timeout := j.config.Timeout } execDeadline,
          Event.stopRenewer] ++ hookEvents ++ graceEvents
          ++ [Event.release j.config.Name])

/-- The scheduler's registrations: the cron entries armed so far (the
schedule expression and the job name it drives, in registration order)
and the name-to-controller map, an association list with Go map update
semantics. -/
structure SchedulerState where
  cronEntries : List (String × String)
  jobs : List (String × Job)
deriving DecidableEq

/-- Go map assignment: bind the key to the value, replacing any
existing binding. -/
def mapInsert (m : List (String × Job)) (k : String) (v : Job) :
    List (String × Job) :=
  m.filter (fun kv => !(kv.1 == k)) ++ [(k, v)]

/-- `Scheduler.AddJob` from the source: disabled jobs are accepted
silently without registration; otherwise a controller is built and
handed to the cron runner, whose schedule-parse failure (the robfig
parser is the external `parseOk` argument) aborts with an error; on
success the cron entry is registered and the controller is stored in
the map under the job's name. -/
def AddJob (parseOk : String → Bool) (gracePeriod : Duration)
    (s : SchedulerState) (cfg : Config.JobConfig) :
    Except String SchedulerState :=
  if !cfg.IsEnabled then .ok s
  else if !parseOk cfg.Schedule then .error ("failed to add job " ++ cfg.Name)
  else .ok { cronEntries := s.cronEntries ++ [(cfg.Schedule, cfg.Name)],
             jobs := mapInsert s.jobs cfg.Name ⟨cfg, gracePeriod⟩ }

/-- `defaultShutdownTimeout` (30 seconds). -/
def defaultShutdownTimeout : Duration := 30 * second

/-- The wait budget chosen by `waitForJobWithTimeout`: the job's
configured timeout, or the 30-second default when that timeout is
zero. -/
def shutdownBudget (jobTimeout : Duration) : Duration :=
  if jobTimeout == 0 then defaultShutdownTimeout else jobTimeout

/-- Milliseconds of a duration (truncating division as in Go, clamped
at zero for the Nat clock), the granularity of the shutdown poll
loop. -/
def msOfDuration (d : Duration) : Nat := (Int.tdiv d 1000000).toNat

/-- The shutdown poll period (100 ms ticker). -/
def pollStepMs : Nat := 100

/-- The select loop of `waitForJobWithTimeout`, discretised to the
100 ms ticker: at each instant the timer is checked first (when the
budget has expired, `Cancel()` is invoked and the wait ends, result
true), then the completion poll (result false when the job is no longer
running).  `fuel` bounds the recursion; the caller supplies more fuel
than the budget can consume, so exhaustion (result true) is
unreachable. -/
def waitLoopFuel (budgetMs : Nat) (runningAt : Nat → Bool) :
    Nat → Nat → Bool
  | 0, _ => true
  | fuel + 1, elapsed =>
    if budgetMs ≤ elapsed then true
    else if !runningAt elapsed then false
    else waitLoopFuel budgetMs runningAt fuel (elapsed + pollStepMs)

/-- `Scheduler.waitForJobWithTimeout`, abstracted over the job's
completion behaviour: `runningAt t` is what polling `job.IsRunning()`
`t` milliseconds after the wait began returns; the result is whether
`Cancel()` was invoked on the controller. -/
def waitForJobWithTimeout (jobTimeout : Duration) (runningAt : Nat → Bool) :
    Bool :=
  let budgetMs := msOfDuration (shutdownBudget jobTimeout)
  waitLoopFuel budgetMs runningAt (budgetMs + 1) pollStepMs

end Scheduler

end Cronlock

namespace Cronlock

/-- C8: for every execution result of the shell runner, success holds iff
the exit code is 0 and no error indicator is present; and whenever the
error is not an exit error (the child never ran), the reported exit code
is -1. -/
theorem C8_success_iff_and_spawn_failure_code (o : Executor.RunOutcome) :
    ((Executor.Execute o).Success = true ↔
      ((Executor.Execute o).ExitCode = 0 ∧ (Executor.Execute o).Err = none)) ∧
    (∀ e : Executor.GoErr, o.runErr = some e → e.isExitError = false →
      (Executor.Execute o).ExitCode = -1) := by
  constructor
  · cases h : o.runErr with
    | none => simp [Executor.Execute, Executor.Result.Success, h]
    | some e =>
      cases e <;> simp [Executor.Execute, Executor.Result.Success, h]
  · intro e he hne
    cases e with
    | exitError c => simp [Executor.GoErr.isExitError] at hne
    | otherError m => simp [Executor.Execute, he]

/-- C8 witness: a concrete spawn failure has exit code -1, and a clean
run with exit code 0 is a success. -/
theorem C8_success_iff_witness :
    (Executor.Execute ⟨some (.otherError "fork failed"), "", "", 0⟩).ExitCode = -1 ∧
    (Executor.Execute ⟨none, "out", "", 5⟩).Success = true := by
  refine ⟨(C8_success_iff_and_spawn_failure_code
      ⟨some (.otherError "fork failed"), "", "", 0⟩).2
      (.otherError "fork failed") rfl rfl, ?_⟩
  have h := (C8_success_iff_and_spawn_failure_code ⟨none, "out", "", 5⟩).1
  exact h.mpr (by constructor <;> rfl)

namespace Lock

/-- Looking a key up after filtering out exactly that key finds
nothing. -/
theorem lookup_filter_key_ne {β : Type} (j : String) (l : List (String × β)) :
    (l.filter (fun kv => !(kv.1 == j))).lookup j = none := by
  induction l with
  | nil => rfl
  | cons kv t ih =>
    rcases kv with ⟨k, v⟩
    by_cases hk : k = j
    · subst hk
      simpa [List.filter_cons] using ih
    · have hk' : (k == j) = false := by simpa using hk
      have hj' : (j == k) = false := by simpa using Ne.symm hk
      simp [List.filter_cons, hk', List.lookup, hj', ih]

end Lock

/-- C7: when the per-node table holds no recorded nonce for a job name,
Release is a no-op that succeeds without any store operation, and Extend
returns false without any store operation. -/
theorem C7_release_extend_no_nonce_noop (r : Lock.RedisLocker) (st : Lock.Store)
    (jobName : String) (ttl : Duration) (e1 e2 : Bool)
    (h : r.locks.lookup jobName = none) :
    r.Release st jobName e1 = (none, r, st, []) ∧
    r.Extend st jobName ttl e2 = ((none, false), r, st, []) := by
  constructor
  · simp [Lock.RedisLocker.Release, h]
  · simp [Lock.RedisLocker.Extend, h]

/-- C7 witness: on a locker with an empty per-node table, Release and
Extend for a concrete job are store-free no-ops. -/
theorem C7_release_extend_no_nonce_noop_witness :
    Lock.RedisLocker.Release ⟨"node-1", "cronlock:", []⟩ [] "backup" false =
      (none, ⟨"node-1", "cronlock:", []⟩, [], []) ∧
    Lock.RedisLocker.Extend ⟨"node-1", "cronlock:", []⟩ [] "backup" (30 * second) false =
      ((none, false), ⟨"node-1", "cronlock:", []⟩, [], []) :=
  C7_release_extend_no_nonce_noop ⟨"node-1", "cronlock:", []⟩ [] "backup"
    (30 * second) false false rfl

/-- C1 counterexample: a Release whose script round trip fails with a
store error returns with the recorded nonce still present in the
per-node table — the nonce is not cleared in the store-error outcome,
contrary to the claim that it is cleared in every outcome. -/
theorem C1_counterexample :
    ((Lock.RedisLocker.Release ⟨"node-1", "cronlock:", [("backup", "node-1:u1")]⟩
        [("cronlock:job:backup", "node-1:u1", 5000)] "backup" true).1 =
      some "failed to release lock") ∧
    ((Lock.RedisLocker.Release ⟨"node-1", "cronlock:", [("backup", "node-1:u1")]⟩
        [("cronlock:job:backup", "node-1:u1", 5000)] "backup" true).2.1.locks.lookup "backup"
      = some "node-1:u1") := ⟨rfl, rfl⟩

/-- C1 (amended): when a nonce is recorded, Release clears it in both
outcomes of an error-free script round trip (value matched and deleted,
or value mismatched with reply 0); when the script call fails with a
store error, the error is surfaced and the recorded nonce is retained
unchanged. -/
theorem C1_release_clears_nonce_unless_store_error (r : Lock.RedisLocker)
    (st : Lock.Store) (jobName v : String)
    (h : r.locks.lookup jobName = some v) :
    ((r.Release st jobName false).2.1.locks.lookup jobName = none) ∧
    ((r.Release st jobName true).2.1 = r ∧
      ((r.Release st jobName true).1).isSome = true) := by
  refine ⟨?_, ?_, ?_⟩
  · by_cases hm : Lock.storeGet st (r.lockKey jobName) = some v
    · simp [Lock.RedisLocker.Release, h, Lock.releaseScriptEval, hm,
        Lock.lookup_filter_key_ne]
    · simp [Lock.RedisLocker.Release, h, Lock.releaseScriptEval, hm,
        Lock.lookup_filter_key_ne]
  · simp [Lock.RedisLocker.Release, h]
  · simp [Lock.RedisLocker.Release, h]

/-- C1 (amended) witness: concrete matched release clears the nonce;
the store-error variant of the same call retains the locker state and
reports an error. -/
theorem C1_release_clears_nonce_witness :
    ((Lock.RedisLocker.Release ⟨"n1", "cronlock:", [("backup", "n1:u1")]⟩
        [("cronlock:job:backup", "n1:u1", 5000)] "backup" false).2.1.locks.lookup "backup"
      = none) ∧
    ((Lock.RedisLocker.Release ⟨"n1", "cronlock:", [("backup", "n1:u1")]⟩
        [("cronlock:job:backup", "n1:u1", 5000)] "backup" true).2.1 =
      ⟨"n1", "cronlock:", [("backup", "n1:u1")]⟩ ∧
      ((Lock.RedisLocker.Release ⟨"n1", "cronlock:", [("backup", "n1:u1")]⟩
        [("cronlock:job:backup", "n1:u1", 5000)] "backup" true).1).isSome = true) :=
  C1_release_clears_nonce_unless_store_error
    ⟨"n1", "cronlock:", [("backup", "n1:u1")]⟩
    [("cronlock:job:backup", "n1:u1", 5000)] "backup" "n1:u1" rfl

/-- C5: a Run invocation on a controller whose running flag is already
true returns immediately with the state unchanged and an empty effect
trace — zero lease-store operations, zero workload or hook spawns, and
the store untouched. -/
theorem C5_reentry_is_noop (j : Scheduler.Job) (st : Scheduler.JobState)
    (o : Scheduler.RunOracle) (h : Scheduler.CancelHandle)
    (hr : st.running = true) :
    j.Run st o h = (st, []) := by
  simp [Scheduler.Job.Run, hr]

/-- C5 witness: a concrete re-entrant Run is a no-op. -/
theorem C5_reentry_is_noop_witness :
    Scheduler.Job.Run
      ⟨⟨"j1", "* * * * *", "echo hi", 0, 0, "", [], "", "", none⟩, 0⟩
      ⟨true, none⟩ ⟨.acquired, ⟨none, "", "", 0⟩, false⟩ 3 =
      (⟨true, none⟩, []) :=
  C5_reentry_is_noop
    ⟨⟨"j1", "* * * * *", "echo hi", 0, 0, "", [], "", "", none⟩, 0⟩
    ⟨true, none⟩ ⟨.acquired, ⟨none, "", "", 0⟩, false⟩ 3 rfl

/-- C3 counterexample: a concrete firing that acquires the lease and
completes returns with `running` false but the cancel handle still set
to the handle stored for the firing, so the cancel handle is not
cleared when Run returns. -/
theorem C3_counterexample :
    (Scheduler.Job.Run
      ⟨⟨"j1", "* * * * *", "echo hi", 0, 0, "", [], "", "", none⟩, 0⟩
      ⟨false, none⟩ ⟨.acquired, ⟨none, "", "", 0⟩, false⟩ 7).1.running = false ∧
    (Scheduler.Job.Run
      ⟨⟨"j1", "* * * * *", "echo hi", 0, 0, "", [], "", "", none⟩, 0⟩
      ⟨false, none⟩ ⟨.acquired, ⟨none, "", "", 0⟩, false⟩ 7).1.cancelCtx = some 7 :=
  ⟨rfl, rfl⟩

/-- C3 (amended): after a Run invocation that was not skipped by the
re-entry guard returns, `running` is false; the cancel handle, however,
is never cleared: a firing that acquired the lease leaves its handle in
place, and the other paths leave whatever handle was already stored. -/
theorem C3_run_clears_running_but_not_cancel (j : Scheduler.Job)
    (st : Scheduler.JobState) (o : Scheduler.RunOracle)
    (h : Scheduler.CancelHandle) (hr : st.running = false) :
    (j.Run st o h).1.running = false ∧
    (j.Run st o h).1.cancelCtx =
      (if o.acquireRes = .acquired then some h else st.cancelCtx) := by
  cases ha : o.acquireRes <;> simp [Scheduler.Job.Run, hr, ha]

/-- C3 (amended) witness: the concrete acquired firing ends with
`running` false and the handle of this firing still stored. -/
theorem C3_run_clears_running_but_not_cancel_witness :
    (Scheduler.Job.Run
      ⟨⟨"j1", "* * * * *", "echo hi", 0, 0, "", [], "", "", none⟩, 0⟩
      ⟨false, none⟩ ⟨.acquired, ⟨none, "", "", 0⟩, false⟩ 7).1.running = false ∧
    (Scheduler.Job.Run
      ⟨⟨"j1", "* * * * *", "echo hi", 0, 0, "", [], "", "", none⟩, 0⟩
      ⟨false, none⟩ ⟨.acquired, ⟨none, "", "", 0⟩, false⟩ 7).1.cancelCtx =
      (if Scheduler.AcquireOutcome.acquired = Scheduler.AcquireOutcome.acquired
        then some 7 else none) :=
  C3_run_clears_running_but_not_cancel
    ⟨⟨"j1", "* * * * *", "echo hi", 0, 0, "", [], "", "", none⟩, 0⟩
    ⟨false, none⟩ ⟨.acquired, ⟨none, "", "", 0⟩, false⟩ 7 rfl

/-- C6: every firing that is not skipped by the re-entry guard issues
its acquire with TTL equal to the explicit `lock_ttl` when that is
non-zero, else the timeout plus 60 seconds when the timeout is non-zero,
else exactly 5 minutes (durations are non-negative by config
validation). -/
theorem C6_lease_ttl_for_firing (j : Scheduler.Job) (st : Scheduler.JobState)
    (o : Scheduler.RunOracle) (h : Scheduler.CancelHandle)
    (hr : st.running = false) (hT : 0 ≤ j.config.Timeout) :
    Scheduler.Event.acquire j.config.Name
      (if j.config.LockTTL ≠ 0 then j.config.LockTTL
        else if j.config.Timeout ≠ 0 then j.config.Timeout + minute
        else 5 * minute) ∈ (j.Run st o h).2 := by
  have httl : (if j.config.LockTTL ≠ 0 then j.config.LockTTL
      else if j.config.Timeout ≠ 0 then j.config.Timeout + minute
      else 5 * minute) = Scheduler.lockTTLFor j.config := by
    unfold Scheduler.lockTTLFor
    rcases eq_or_ne j.config.LockTTL 0 with h0 | h0
    · rcases eq_or_ne j.config.Timeout 0 with h1 | h1
      · simp [h0, h1]
      · have hpos : 0 < j.config.Timeout := lt_of_le_of_ne hT (Ne.symm h1)
        simp [h0, h1, hpos]
    · simp [h0]
  rw [httl]
  cases ha : o.acquireRes <;> simp [Scheduler.Job.Run, hr, ha]

/-- C6 witness: a job with no explicit lock TTL and a 2-second timeout
acquires with TTL 2 s + 60 s. -/
theorem C6_lease_ttl_for_firing_witness :
    Scheduler.Event.acquire "j1"
      (if (0 : Duration) ≠ 0 then 0
        else if (2 * second : Duration) ≠ 0 then 2 * second + minute
        else 5 * minute) ∈
      (Scheduler.Job.Run
        ⟨⟨"j1", "* * * * *", "echo hi", 2 * second, 0, "", [], "", "", none⟩, 0⟩
        ⟨false, none⟩ ⟨.acquired, ⟨none, "", "", 0⟩, false⟩ 7).2 :=
  C6_lease_ttl_for_firing
    ⟨⟨"j1", "* * * * *", "echo hi", 2 * second, 0, "", [], "", "", none⟩, 0⟩
    ⟨false, none⟩ ⟨.acquired, ⟨none, "", "", 0⟩, false⟩ 7 rfl (by decide)

/-- C10: every hook execution produced by a Run invocation is performed
under a context carrying no deadline and with a zero Timeout option,
regardless of the job's configured per-firing timeout. -/
theorem C10_hooks_have_no_deadline (j : Scheduler.Job) (st : Scheduler.JobState)
    (o : Scheduler.RunOracle) (h : Scheduler.CancelHandle)
    (ht : String) (opts : Executor.Options) (d : Option Duration)
    (hmem : Scheduler.Event.execHook ht opts d ∈ (j.Run st o h).2) :
    d = none ∧ opts.Timeout = 0 := by
  cases hr : st.running with
  | true => simp [Scheduler.Job.Run, hr] at hmem
  | false =>
    cases ha : o.acquireRes with
    | storeError => simp [Scheduler.Job.Run, hr, ha] at hmem
    | notAcquired => simp [Scheduler.Job.Run, hr, ha] at hmem
    | acquired =>
      simp only [Scheduler.Job.Run, hr, ha, Bool.false_eq_true, if_false,
        Scheduler.Job.runHook] at hmem
      split_ifs at hmem <;> simp_all [List.mem_append]

/-- A lookup that misses the front part of an append is resolved in the
back part. -/
theorem lookup_append_of_none {β : Type} (k : String) (l₁ l₂ : List (String × β))
    (h : l₁.lookup k = none) : (l₁ ++ l₂).lookup k = l₂.lookup k := by
  induction l₁ with
  | nil => rfl
  | cons kv t ih =>
    rcases kv with ⟨a, b⟩
    cases hk : (k == a) with
    | true => simp [List.lookup, hk] at h
    | false =>
      simp only [List.lookup, hk] at h
      simpa [List.cons_append, List.lookup, hk] using ih h

/-- Go map assignment makes the key map to the new value. -/
theorem lookup_mapInsert (m : List (String × Scheduler.Job)) (k : String)
    (v : Scheduler.Job) : (Scheduler.mapInsert m k v).lookup k = some v := by
  unfold Scheduler.mapInsert
  rw [lookup_append_of_none k _ _ (Lock.lookup_filter_key_ne k m)]
  simp [List.lookup]

/-- When the per-job validation loop succeeds, the job names it walked
are pairwise distinct and none of them was already in the `seen`
table. -/
theorem validateJobs_none_nodup (parseOk : String → Bool)
    (jobs : List Config.JobConfig) :
    ∀ (i : Nat) (seen : List (String × Nat)),
      Config.validateJobs parseOk jobs i seen = none →
      (jobs.map (fun jb => jb.Name)).Nodup ∧
        ∀ n ∈ jobs.map (fun jb => jb.Name), seen.lookup n = none := by
  induction jobs with
  | nil => intro i seen _; simp
  | cons job rest ih =>
    intro i seen h
    by_cases hname : job.Name = ""
    · rw [Config.validateJobs] at h
      simp [hname] at h
    · rw [Config.validateJobs] at h
      simp only [if_neg hname] at h
      cases hs : seen.lookup job.Name with
      | some p => rw [hs] at h; simp at h
      | none =>
        rw [hs] at h
        split_ifs at h
        obtain ⟨hnd, hdisj⟩ := ih (i + 1) ((job.Name, i) :: seen) h
        have hnotin : job.Name ∉ rest.map (fun jb => jb.Name) := by
          intro hin
          have := hdisj job.Name hin
          simp [List.lookup] at this
        constructor
        · rw [List.map_cons, List.nodup_cons]
          exact ⟨hnotin, hnd⟩
        · intro n hn
          rw [List.map_cons, List.mem_cons] at hn
          rcases hn with hEq | hMem
          · rw [hEq]; exact hs
          · have hlk := hdisj n hMem
            cases hnj : (n == job.Name) with
            | true => simp [List.lookup, hnj] at hlk
            | false => simpa [List.lookup, hnj] using hlk

/-- C2 counterexample: adding a job definition whose name equals an
already-registered job's name is accepted (no error) and replaces the
existing controller registration in the map. -/
theorem C2_counterexample :
    Scheduler.AddJob (fun _ => true) 0
      ⟨[("* * * * *", "a")],
        [("a", ⟨⟨"a", "* * * * *", "echo 0", 0, 0, "", [], "", "", none⟩, 0⟩)]⟩
      ⟨"a", "* * * * *", "echo 1", 0, 0, "", [], "", "", none⟩ =
      .ok ⟨[("* * * * *", "a"), ("* * * * *", "a")],
        [("a", ⟨⟨"a", "* * * * *", "echo 1", 0, 0, "", [], "", "", none⟩, 0⟩)]⟩ := by
  rfl

/-- C2 (amended): the scheduler's AddJob performs no duplicate-name
check — an enabled job with a parseable schedule is always accepted,
appending a cron registration and replacing any existing map entry of
the same name; duplicate names are instead rejected upstream by the
configuration validator, which never accepts a job list containing two
jobs with the same name. -/
theorem C2_addjob_replaces_and_validate_rejects
    (parseOk : String → Bool) (g : Duration) (s : Scheduler.SchedulerState)
    (cfg : Config.JobConfig) (pcfg : Config.Config)
    (hen : cfg.IsEnabled = true) (hps : parseOk cfg.Schedule = true)
    (hdup : ¬ (pcfg.Jobs.map (fun jb => jb.Name)).Nodup) :
    (∃ s', Scheduler.AddJob parseOk g s cfg = .ok s' ∧
      s'.jobs.lookup cfg.Name = some ⟨cfg, g⟩ ∧
      s'.cronEntries = s.cronEntries ++ [(cfg.Schedule, cfg.Name)]) ∧
    (Config.validate parseOk pcfg).isSome = true := by
  constructor
  · refine ⟨⟨s.cronEntries ++ [(cfg.Schedule, cfg.Name)],
      Scheduler.mapInsert s.jobs cfg.Name ⟨cfg, g⟩⟩, ?_, ?_, rfl⟩
    · simp [Scheduler.AddJob, hen, hps]
    · exact lookup_mapInsert s.jobs cfg.Name ⟨cfg, g⟩
  · unfold Config.validate
    split_ifs <;> try rfl
    cases hv : Config.validateJobs parseOk pcfg.Jobs 0 [] with
    | some e => simp [hv]
    | none =>
      exact absurd (validateJobs_none_nodup parseOk pcfg.Jobs 0 [] hv).1 hdup

/-- C2 (amended) witness: a concrete duplicate add is accepted with the
map entry replaced, while validating a config holding two jobs named
`a` fails. -/
theorem C2_addjob_replaces_and_validate_rejects_witness :
    (∃ s', Scheduler.AddJob (fun _ => true) 0
        ⟨[("* * * * *", "a")],
          [("a", ⟨⟨"a", "* * * * *", "echo 0", 0, 0, "", [], "", "", none⟩, 0⟩)]⟩
        ⟨"a", "* * * * *", "echo 1", 0, 0, "", [], "", "", none⟩ = .ok s' ∧
      s'.jobs.lookup "a" =
        some ⟨⟨"a", "* * * * *", "echo 1", 0, 0, "", [], "", "", none⟩, 0⟩ ∧
      s'.cronEntries = [("* * * * *", "a")] ++ [("* * * * *", "a")]) ∧
    (Config.validate (fun _ => true)
      ⟨⟨"n1", 0⟩, ⟨"localhost:6379", "", 0, "cronlock:"⟩,
        [⟨"a", "* * * * *", "echo 1", 0, 0, "", [], "", "", none⟩,
         ⟨"a", "*/5 * * * *", "echo 2", 0, 0, "", [], "", "", none⟩]⟩).isSome
      = true :=
  C2_addjob_replaces_and_validate_rejects (fun _ => true) 0
    ⟨[("* * * * *", "a")],
      [("a", ⟨⟨"a", "* * * * *", "echo 0", 0, 0, "", [], "", "", none⟩, 0⟩)]⟩
    ⟨"a", "* * * * *", "echo 1", 0, 0, "", [], "", "", none⟩
    ⟨⟨"n1", 0⟩, ⟨"localhost:6379", "", 0, "cronlock:"⟩,
      [⟨"a", "* * * * *", "echo 1", 0, 0, "", [], "", "", none⟩,
       ⟨"a", "*/5 * * * *", "echo 2", 0, 0, "", [], "", "", none⟩]⟩
    rfl rfl (by decide)

/-- Characterisation of the discretised shutdown wait loop against a
job that completes `c` ms in: with 100-ms-aligned budget and completion
instants and enough fuel, the loop reports a cancellation exactly when
the budget does not cover the completion instant. -/
theorem waitLoopFuel_char (b c : Nat) (hb : b % 100 = 0) (hc : c % 100 = 0) :
    ∀ (fuel e : Nat), e % 100 = 0 → 0 < e → e ≤ b → e ≤ c →
      b < e + fuel * 100 →
      Scheduler.waitLoopFuel b (fun t => decide (t < c)) fuel e =
        decide (b ≤ c) := by
  intro fuel
  induction fuel with
  | zero =>
    intro e he hepos heb hec hfuel
    exact absurd heb (by omega)
  | succ fuel ih =>
    intro e he hepos heb hec hfuel
    by_cases hble : b ≤ e
    · have hbc : b ≤ c := le_trans hble hec
      rw [Scheduler.waitLoopFuel]
      simp [hble, hbc]
    · by_cases hce : e < c
      · have hstepmod : Scheduler.pollStepMs = 100 := rfl
        have h1 : (e + Scheduler.pollStepMs) % 100 = 0 := by rw [hstepmod]; omega
        have h2 : 0 < e + Scheduler.pollStepMs := by rw [hstepmod]; omega
        have h3 : e + Scheduler.pollStepMs ≤ b := by rw [hstepmod]; omega
        have h4 : e + Scheduler.pollStepMs ≤ c := by rw [hstepmod]; omega
        have h5 : b < e + Scheduler.pollStepMs + fuel * 100 := by
          rw [hstepmod]; omega
        have step : Scheduler.waitLoopFuel b (fun t => decide (t < c)) (fuel + 1) e
            = Scheduler.waitLoopFuel b (fun t => decide (t < c)) fuel
              (e + Scheduler.pollStepMs) := by
          rw [Scheduler.waitLoopFuel]
          simp [hble, hce]
        rw [step]
        exact ih (e + Scheduler.pollStepMs) h1 h2 h3 h4 h5
      · have hcb : ¬ b ≤ c := by omega
        rw [Scheduler.waitLoopFuel]
        simp [hble, hce, hcb]

/-- C4 counterexample: a job with a 5-second configured timeout that is
still running 5 s into shutdown (it would finish at 10 s) has Cancel
invoked — the wait budget is the job's own 5 s, not
max(5 s, 30 s) = 30 s as the claim states. -/
theorem C4_counterexample :
    Scheduler.waitForJobWithTimeout (5 * second) (fun t => decide (t < 10000))
      = true ∧
    Scheduler.shutdownBudget (5 * second) ≠ max (5 * second) (30 * second) := by
  constructor
  · decide
  · decide

/-- C4 (amended): during graceful shutdown each running job is waited
on for its own configured timeout when that is non-zero — even when it
is smaller than 30 seconds — and for the 30-second default only when no
timeout is configured; Cancel() is invoked exactly when the job is
still running once that budget expires (instants 100-ms aligned). -/
theorem C4_shutdown_budget_is_own_timeout (T : Duration) (c : Nat)
    (hc : c % 100 = 0) (hcpos : 0 < c)
    (hb : Scheduler.msOfDuration (Scheduler.shutdownBudget T) % 100 = 0)
    (hbpos : 0 < Scheduler.msOfDuration (Scheduler.shutdownBudget T)) :
    (Scheduler.waitForJobWithTimeout T (fun t => decide (t < c)) =
      decide (Scheduler.msOfDuration (Scheduler.shutdownBudget T) ≤ c)) ∧
    Scheduler.shutdownBudget T = (if T = 0 then 30 * second else T) := by
  constructor
  · unfold Scheduler.waitForJobWithTimeout
    exact waitLoopFuel_char (Scheduler.msOfDuration (Scheduler.shutdownBudget T))
      c hb hc (Scheduler.msOfDuration (Scheduler.shutdownBudget T) + 1)
      Scheduler.pollStepMs (by simp [Scheduler.pollStepMs])
      (by simp [Scheduler.pollStepMs]) (by simp [Scheduler.pollStepMs]; omega)
      (by simp [Scheduler.pollStepMs]; omega)
      (by simp [Scheduler.pollStepMs]; omega)
  · unfold Scheduler.shutdownBudget Scheduler.defaultShutdownTimeout
    rcases eq_or_ne T 0 with h0 | h0
    · simp [h0]
    · simp [h0]

/-- C4 (amended) witness: a job with no configured timeout completing
10 s in is not cancelled (the 30 s default applies), and the budget of
a 5-second-timeout job is 5 s. -/
theorem C4_shutdown_budget_is_own_timeout_witness :
    (Scheduler.waitForJobWithTimeout 0 (fun t => decide (t < 10000)) =
      decide (Scheduler.msOfDuration (Scheduler.shutdownBudget 0) ≤ 10000)) ∧
    Scheduler.shutdownBudget 0 = (if (0 : Duration) = 0 then 30 * second else 0) :=
  C4_shutdown_budget_is_own_timeout 0 10000 (by decide) (by decide)
    (by decide) (by decide)

/-- The first closing brace after a brace-free segment sits exactly at
that segment's length. -/
theorem idxOfRBrace_append (name suf : List Char) (h : '\x7d' ∉ name) :
    Config.idxOfRBrace (name ++ '\x7d' :: suf) = some name.length := by
  induction name with
  | nil => simp [Config.idxOfRBrace]
  | cons c t ih =>
    have hc : ¬ c = '\x7d' := by
      intro hh
      exact h (hh ▸ List.mem_cons_self c t)
    have ht : '\x7d' ∉ t := fun hm => h (List.mem_cons_of_mem c hm)
    simp [Config.idxOfRBrace, hc, ih ht]

/-- The brace scan of a well-formed reference consumes the name and
both braces. -/
theorem braceScan_append (name suf : List Char) (hne : name ≠ [])
    (hnb : '\x7d' ∉ name) :
    Config.braceScan (name ++ '\x7d' :: suf) = (name, name.length + 2) := by
  unfold Config.braceScan
  rw [idxOfRBrace_append name suf hnb]
  cases name with
  | nil => exact absurd rfl hne
  | cons a t =>
    show ((a :: t ++ '\x7d' :: suf).take (a :: t).length, (a :: t).length + 2) = _
    rw [List.take_left]

/-- `getShellName` on a well-formed braced reference returns the
enclosed name and consumes it plus the two braces. -/
theorem getShellName_brace (name suf : List Char) (hne : name ≠ [])
    (hnb : '\x7d' ∉ name) :
    Config.getShellName ('\x7b' :: (name ++ '\x7d' :: suf)) =
      (name, name.length + 2) := by
  have hbs := braceScan_append name suf hne hnb
  cases name with
  | nil => exact absurd rfl hne
  | cons a t =>
    cases t with
    | nil =>
      cases hsp : Config.isShellSpecialVar a with
      | true => simp [Config.getShellName, hsp]
      | false => simpa [Config.getShellName, hsp] using hbs
    | cons b t' =>
      have hb : ¬ b = '\x7d' := by
        intro hh
        exact hnb (hh ▸ List.mem_cons_of_mem a (List.mem_cons_self b t'))
      have hb' : (b == '\x7d') = false := by simpa using hb
      simpa [Config.getShellName, hb', Bool.and_false] using hbs

/-- `os.Expand`'s loop copies a dollar-free segment verbatim. -/
theorem expandChars_append_no_dollar (m : List Char → List Char)
    (pre rest : List Char) (h : '$' ∉ pre) :
    Config.expandChars m (pre ++ rest) = pre ++ Config.expandChars m rest := by
  induction pre with
  | nil => rfl
  | cons c t ih =>
    have hc : ¬ (c = '$' ∧ (t ++ rest) ≠ []) := by
      rintro ⟨h1, _⟩
      exact h (h1 ▸ List.mem_cons_self c t)
    have ht : '$' ∉ t := fun hm => h (List.mem_cons_of_mem c hm)
    rw [List.cons_append]
    rw [Config.expandChars]
    rw [if_neg hc, ih ht, List.cons_append]

/-- `os.Expand`'s loop substitutes a well-formed braced reference and
continues after it. -/
theorem expandChars_dollar_brace (m : List Char → List Char)
    (name suf : List Char) (hne : name ≠ []) (hnb : '\x7d' ∉ name) :
    Config.expandChars m ('$' :: '\x7b' :: (name ++ '\x7d' :: suf)) =
      m name ++ Config.expandChars m suf := by
  have hcond : (('$' : Char) = '$' ∧ ('\x7b' :: (name ++ '\x7d' :: suf)) ≠ []) :=
    ⟨rfl, by simp⟩
  rw [Config.expandChars, if_pos hcond, getShellName_brace name suf hne hnb]
  have hdrop : ('\x7b' :: (name ++ '\x7d' :: suf)).drop (name.length + 2) = suf := by
    have h1 : ('\x7b' :: (name ++ '\x7d' :: suf)) =
        (('\x7b' :: name) ++ ['\x7d']) ++ suf := by simp
    have h2 : (('\x7b' :: name) ++ ['\x7d']).length = name.length + 2 := by simp
    rw [h1, ← h2, List.drop_left]
  simp [hne, hdrop]

/-- The first colon-dash after a colon-dash-free key segment sits
exactly at that segment's length. -/
theorem findColonDash_append (name dflt : List Char)
    (h : Config.findColonDash name = none) :
    Config.findColonDash (name ++ ':' :: '-' :: dflt) = some name.length := by
  induction name with
  | nil => simp [Config.findColonDash, Config.startsWithColonDash]
  | cons c t ih =>
    rw [Config.findColonDash] at h
    by_cases hs : Config.startsWithColonDash (c :: t) = true
    · rw [if_pos hs] at h
      exact absurd h (by simp)
    · rw [if_neg hs] at h
      have ht : Config.findColonDash t = none := by
        cases hft : Config.findColonDash t with
        | none => rfl
        | some k => rw [hft] at h; simp at h
      have hsc : Config.startsWithColonDash (c :: (t ++ ':' :: '-' :: dflt)) = false := by
        cases t with
        | nil =>
          simp [Config.startsWithColonDash]
        | cons b t' =>
          have : Config.startsWithColonDash (c :: b :: t') = false := by
            simpa using hs
          simpa [Config.startsWithColonDash] using this
      rw [List.cons_append, Config.findColonDash, hsc]
      simp [ih ht]

/-- C9: expansion substitutes a braced variable reference with the
variable's value (empty when unset), and a braced reference with a
colon-dash default with the variable's value when set non-empty and the
literal default otherwise; surrounding text is copied and expansion
continues after the reference. -/
theorem C9_expandEnv_var_and_default (env : String → Option String)
    (pre name dflt suf : List Char)
    (hpre : '$' ∉ pre) (hne : name ≠ []) (hnb : '\x7d' ∉ name)
    (hncd : Config.findColonDash name = none) (hdb : '\x7d' ∉ dflt) :
    (Config.expandEnv env ⟨pre ++ '$' :: '\x7b' :: (name ++ '\x7d' :: suf)⟩ =
      ⟨pre ++ ((Config.goGetenv env ⟨name⟩).data ++
        (Config.expandEnv env ⟨suf⟩).data)⟩) ∧
    (Config.expandEnv env
        ⟨pre ++ '$' :: '\x7b' :: ((name ++ ':' :: '-' :: dflt) ++ '\x7d' :: suf)⟩ =
      ⟨pre ++ ((if Config.goGetenv env ⟨name⟩ ≠ "" then (Config.goGetenv env ⟨name⟩).data
          else dflt) ++ (Config.expandEnv env ⟨suf⟩).data)⟩) := by
  have hmap1 : Config.envMapping env name = (Config.goGetenv env ⟨name⟩).data := by
    unfold Config.envMapping
    rw [hncd]
  have hkb : '\x7d' ∉ (name ++ ':' :: '-' :: dflt) := by
    intro hm
    rcases List.mem_append.mp hm with hA | hB
    · exact hnb hA
    · rcases List.mem_cons.mp hB with h1 | h2
      · exact absurd h1 (by decide)
      · rcases List.mem_cons.mp h2 with h3 | h4
        · exact absurd h3 (by decide)
        · exact hdb h4
  have hne2 : (name ++ ':' :: '-' :: dflt) ≠ [] := by simp
  have hmap2 : Config.envMapping env (name ++ ':' :: '-' :: dflt) =
      (if Config.goGetenv env ⟨name⟩ ≠ "" then (Config.goGetenv env ⟨name⟩).data
        else dflt) := by
    unfold Config.envMapping
    rw [findColonDash_append name dflt hncd]
    have htake : (name ++ ':' :: '-' :: dflt).take name.length = name :=
      List.take_left name (':' :: '-' :: dflt)
    have hdrop : (name ++ ':' :: '-' :: dflt).drop (name.length + 2) = dflt := by
      have h1 : name ++ ':' :: '-' :: dflt = (name ++ [':', '-']) ++ dflt := by simp
      have h2 : (name ++ [':', '-']).length = name.length + 2 := by simp
      rw [h1, ← h2, List.drop_left]
    simp only [htake, hdrop]
  constructor
  · have key : Config.expandChars (Config.envMapping env)
        (pre ++ '$' :: '\x7b' :: (name ++ '\x7d' :: suf)) =
        pre ++ ((Config.goGetenv env ⟨name⟩).data ++
          Config.expandChars (Config.envMapping env) suf) := by
      rw [expandChars_append_no_dollar _ pre _ hpre,
        expandChars_dollar_brace _ name suf hne hnb, hmap1]
    exact congrArg String.mk key
  · have key : Config.expandChars (Config.envMapping env)
        (pre ++ '$' :: '\x7b' :: ((name ++ ':' :: '-' :: dflt) ++ '\x7d' :: suf)) =
        pre ++ ((if Config.goGetenv env ⟨name⟩ ≠ "" then
            (Config.goGetenv env ⟨name⟩).data else dflt) ++
          Config.expandChars (Config.envMapping env) suf) := by
      rw [expandChars_append_no_dollar _ pre _ hpre,
        expandChars_dollar_brace _ (name ++ ':' :: '-' :: dflt) suf hne2 hkb,
        hmap2]
    exact congrArg String.mk key

/-- C9 witness: with HOME set to a non-empty value and MISSING unset,
a braced HOME reference expands to the value and a braced
MISSING-with-default reference expands to the default. -/
theorem C9_expandEnv_var_and_default_witness :
    (Config.expandEnv (fun k => if k = "HOME" then some "/root" else none)
        ⟨"echo ".data ++ '$' :: '\x7b' :: ("HOME".data ++ '\x7d' :: [])⟩ =
      ⟨"echo ".data ++
        ((Config.goGetenv (fun k => if k = "HOME" then some "/root" else none)
          ⟨"HOME".data⟩).data ++
        (Config.expandEnv (fun k => if k = "HOME" then some "/root" else none)
          ⟨[]⟩).data)⟩) ∧
    (Config.expandEnv (fun k => if k = "HOME" then some "/root" else none)
        ⟨"echo ".data ++ '$' :: '\x7b' ::
          (("MISSING".data ++ ':' :: '-' :: "fb".data) ++ '\x7d' :: [])⟩ =
      ⟨"echo ".data ++
        ((if Config.goGetenv (fun k => if k = "HOME" then some "/root" else none)
            ⟨"MISSING".data⟩ ≠ "" then
          (Config.goGetenv (fun k => if k = "HOME" then some "/root" else none)
            ⟨"MISSING".data⟩).data
        else "fb".data) ++
        (Config.expandEnv (fun k => if k = "HOME" then some "/root" else none)
          ⟨[]⟩).data)⟩) := by
  have h1 := (C9_expandEnv_var_and_default
    (fun k => if k = "HOME" then some "/root" else none)
    "echo ".data "HOME".data "fb".data []
    (by decide) (by decide) (by decide) (by decide) (by decide)).1
  have h2 := (C9_expandEnv_var_and_default
    (fun k => if k = "HOME" then some "/root" else none)
    "echo ".data "MISSING".data "fb".data []
    (by decide) (by decide) (by decide) (by decide) (by decide)).2
  exact ⟨h1, h2⟩

/-- C10 witness: a concrete successful firing with a configured success
hook and a 2-second job timeout runs its hook with no deadline and zero
timeout option. -/
theorem C10_hooks_have_no_deadline_witness :
    (none : Option Duration) = none ∧
    (Executor.Options.mk "notify" "" [] 0).Timeout = 0 :=
  C10_hooks_have_no_deadline
    ⟨⟨"j1", "* * * * *", "echo hi", 2 * second, 0, "", [], "", "notify", none⟩, 0⟩
    ⟨false, none⟩ ⟨.acquired, ⟨none, "", "", 0⟩, false⟩ 7 "success"
    (Executor.Options.mk "notify" "" [] 0) none
    (by simp [Scheduler.Job.Run, Scheduler.Job.runHook, Executor.Execute,
      Executor.Result.Success])

end Cronlock
